import Mathlib

/-!
Shallow embedding of the SyXo/pastebin_scraper program (src/main.go) in Lean 4,
together with theorems settling the specification claims about it.

Strings are modelled as lists of characters.  The keyword patterns compiled at
main.go:152-159 have the shape `(?im)^(.*\bKEYWORD.*)$` with the keyword passed
through regexp.QuoteMeta, i.e. case-insensitive multiline whole-line capture
where the keyword occurs preceded by a word boundary.  We embed that regex's
matching semantics directly: a body is split into lines at newline characters
(the multiline `^`/`$` anchors), and a line matches when the keyword occurs,
case-insensitively, at a position preceded by an ASCII word boundary; the
captured group is the whole line, and the leftmost match of the anchored
pattern is the first matching line in order.
-/

/-- ASCII word character, as used by the RE2 word-boundary assertion `\b`. -/
def isWordChar (c : Char) : Bool :=
  c.isAlphanum || c = '_'

/-- Word-character test extended to an optional character; out-of-string
positions count as non-word, matching RE2's `\b` at text boundaries. -/
def wordOpt : Option Char → Bool
  | none => false
  | some c => isWordChar c

/-- RE2 word boundary between an (optional) previous and current character. -/
def boundaryB (prev cur : Option Char) : Bool :=
  wordOpt prev != wordOpt cur

/-- Case-insensitive (ASCII case folding, the `(?i)` flag) prefix test:
does the first list occur at the head of the second? -/
def matchCIPrefix : List Char → List Char → Bool
  | [], _ => true
  | _ :: _, [] => false
  | a :: as, b :: bs => if a.toLower = b.toLower then matchCIPrefix as bs else false

/-- Case-sensitive prefix test, used to embed strings.Contains. -/
def matchCSPrefix : List Char → List Char → Bool
  | [], _ => true
  | _ :: _, [] => false
  | a :: as, b :: bs => if a = b then matchCSPrefix as bs else false

/-- Case-sensitive substring containment: strContains hay needle embeds the Go
call strings.Contains(hay, needle) used by checkExceptions (main.go:75). -/
def strContains : List Char → List Char → Bool
  | [], needle => needle.isEmpty
  | c :: rest, needle => matchCSPrefix needle (c :: rest) || strContains rest needle

/-- Scan of one line for a word-boundary-delimited, case-insensitive occurrence
of the keyword: the semantics of the `\bKEYWORD` fragment of the compiled
pattern, tried at every position of the line with its preceding character. -/
def hasDelimAux (kw : List Char) : Option Char → List Char → Bool
  | prev, [] => boundaryB prev none && kw.isEmpty
  | prev, c :: cs =>
    (boundaryB prev (some c) && matchCIPrefix kw (c :: cs)) || hasDelimAux kw (some c) cs

/-- Does this line match the compiled pattern for the keyword, i.e. contain the
keyword as a word-boundary-delimited case-insensitive substring? -/
def hasDelim (kw line : List Char) : Bool :=
  hasDelimAux kw none line

/-- Split a body at newline characters; these are the candidate lines of the
multiline anchors `^`/`$` of the compiled pattern. -/
def splitLines : List Char → List (List Char)
  | [] => [[]]
  | c :: cs =>
    if c = '\n' then [] :: splitLines cs
    else
      match splitLines cs with
      | [] => [[c]]
      | l :: ls => (c :: l) :: ls

/-- First-match search of the compiled pattern over the body
(regexp.FindStringSubmatch at main.go:61): the captured group s[1] is the first
line, in order, containing the keyword as a delimited substring. -/
def findLine (kw body : List Char) : Option (List Char) :=
  (splitLines body).find? (fun l => hasDelim kw l)

/-- Whitespace as trimmed by Go's strings.TrimSpace (unicode.IsSpace on the
Latin-1 range). -/
def goIsSpace (c : Char) : Bool :=
  c = ' ' || c = '\t' || c = '\n' || c = Char.ofNat 0x0b || c = Char.ofNat 0x0c ||
    c = '\r' || c = Char.ofNat 0x85 || c = Char.ofNat 0xa0

/-- Embedding of strings.TrimSpace (main.go:62): drop whitespace from both
ends of the captured line. -/
def trimSpace (l : List Char) : List Char :=
  ((l.dropWhile goIsSpace).reverse.dropWhile goIsSpace).reverse

/-- Embedding of checkExceptions (main.go:73-81): true when the string contains
one of the exception substrings, by plain case-sensitive containment. -/
def checkExceptions (s : List Char) (exceptions : List (List Char)) : Bool :=
  exceptions.any (fun x => strContains s x)

/-- Lookup in an association list keyed by strings; embeds indexing a Go map
whose keys are the configured keywords. -/
def lookupKey (k : List Char) : List (List Char × α) → Option α
  | [] => none
  | (k', v) :: rest => if k = k' then some v else lookupKey k rest

/-- Embedding of checkKeywords (main.go:56-71).  The configured patterns are an
association list of keyword and exception list (the map keywordsRegex, whose
iteration order is irrelevant to the resulting map).  For each pattern the
first-match search runs over the body; on a match the captured line is trimmed
and checked against the exceptions: a hit is recorded only when no exception
substring occurs in the trimmed line.  Returns the status flag and the map of
keyword to matched line. -/
def checkKeywords : List (List Char × List (List Char)) → List Char →
    Bool × List (List Char × List Char)
  | [], _ => (false, [])
  | (k, excs) :: rest, body =>
    match findLine k body with
    | none => checkKeywords rest body
    | some line =>
      if checkExceptions (trimSpace line) excs then checkKeywords rest body
      else (true, (k, trimSpace line) :: (checkKeywords rest body).2)

/-- Regex metacharacters escaped by Go's regexp.QuoteMeta (its specialBytes
set): backslash, dot, plus, star, question mark, parentheses, pipe, square
brackets, curly braces, caret and dollar. -/
def isRegexSpecial (c : Char) : Bool :=
  c = '\\' || c = '.' || c = '+' || c = '*' || c = '?' || c = '(' || c = ')' ||
    c = '|' || c = '[' || c = ']' || c = Char.ofNat 0x7b || c = Char.ofNat 0x7d ||
    c = '^' || c = '$'

/-- Embedding of regexp.QuoteMeta as applied to the keyword at main.go:154:
every metacharacter is preceded by a backslash, all other characters pass
through unchanged. -/
def quoteMeta : List Char → List Char
  | [] => []
  | c :: cs => if isRegexSpecial c then '\\' :: c :: quoteMeta cs else c :: quoteMeta cs

/-- Pattern string built for one keyword at main.go:154, the template
(?im)^(.*\\b KEYWORD .*)$ around the escaped keyword. -/
def keywordPattern (kw : List Char) : List Char :=
  "(?im)^(.*\\b".data ++ quoteMeta kw ++ ".*)$".data

/-- How the regex engine reads a pattern fragment as a plain literal character
sequence: an escaped non-alphanumeric character denotes that character
literally; an escaped alphanumeric character is an escape sequence or class
(\b, \d, \n, ...), not a literal; an unescaped metacharacter is an operator,
not a literal; a trailing backslash is a syntax error.  Returns some of the
denoted literal when the fragment is a pure literal, none otherwise. -/
def parseLiteralFragment : List Char → Option (List Char)
  | [] => some []
  | c :: cs =>
    if c = '\\' then
      match cs with
      | [] => none
      | d :: ds => if d.isAlphanum then none else (parseLiteralFragment ds).map (d :: ·)
    else if isRegexSpecial c then none
    else (parseLiteralFragment cs).map (c :: ·)

/-! ## Poll loop, dedup cache and fetch orchestration (main.go:161-202)

The items returned by the upstream list are reduced to their keys (the only
field the core inspects).  The observable behaviour of one poll cycle is a
list of events: item fetches, error reports on the error route, and the fixed
one-second rate-limit delays.  Clock readings are integers (seconds). -/

/-- Observable events of the poll loop. -/
inductive PollEv
  | fetch (k : List Char)
  | fetchError
  | listError
  | delay
deriving DecidableEq

/-- Seconds in the 10-minute dedup retention window of main.go:195. -/
def retentionSeconds : Int := 600

/-- Embedding of the expiry sweep at main.go:193-201: one pass over the
alredyChecked map deleting every entry whose timestamp lies before
now minus the retention window. -/
def expireCache (now : Int) (m : List (List Char × Int)) : List (List Char × Int) :=
  m.filter (fun kv => ! decide (kv.2 < now - retentionSeconds))

/-- Embedding of the per-item body of the inner loop at main.go:178-192.  An
item whose key is in the dedup cache is skipped with no events; otherwise it is
fetched (the fails flag abstracts the fetch outcome: a failure additionally
reports on the error route) and the fixed one-second delay follows either way.
Modelled from the spec: p.fetch is not under src/, and per the spec it records
the item's key in the dedup cache when the fetch is attempted. -/
def processItem (checked : List (List Char × Int)) (now : Int) (fails : Bool)
    (k : List Char) : List PollEv × List (List Char × Int) :=
  if (lookupKey k checked).isSome then ([], checked)
  else (PollEv.fetch k :: (if fails then [PollEv.fetchError] else []) ++ [PollEv.delay],
    (k, now) :: checked)

/-- Embedding of the inner item loop at main.go:178-192: items processed one at
a time in list order, stopping at the top of each iteration when the
termination flag is set. -/
def processPastes (terminate : Bool) (checked : List (List Char × Int)) (now : Int)
    (fails : List Char → Bool) : List (List Char) → List PollEv × List (List Char × Int)
  | [] => ([], checked)
  | k :: ks =>
    if terminate then ([], checked)
    else
      let r := processItem checked now (fails k) k
      let r2 := processPastes terminate r.2 now fails ks
      (r.1 ++ r2.1, r2.2)

/-- Embedding of one iteration of the outer loop at main.go:161-202: check the
termination flag, fetch the paste list, on failure report on the error route
and continue with no items (modelled from the spec: fetchPasteList is not under
src/ and returns no items on failure), process the items, then run the expiry
sweep.  Returns the events, the updated dedup cache, and whether the loop
continues into another cycle. -/
def pollCycle (terminate : Bool) (listResult : Except (List Char) (List (List Char)))
    (checked : List (List Char × Int)) (now : Int) (fails : List Char → Bool) :
    List PollEv × List (List Char × Int) × Bool :=
  if terminate then ([], checked, false)
  else
    let pe : List (List Char) × List PollEv :=
      match listResult with
      | Except.ok ps => (ps, [])
      | Except.error _ => ([], [PollEv.listError])
    let r := processPastes terminate checked now fails pe.1
    (pe.2 ++ r.1, expireCache now r.2, true)

/-! ## Delivery workers (main.go:128-150)

The per-element bodies of the two consumer goroutines, as event lists.  The
send operations (sendPasteMessage, sendErrorMessage) live outside src/ and are
abstracted by their boolean outcome. -/

/-- Observable events of the delivery workers. -/
inductive DeliveryEv
  | sendPaste
  | emitError
  | logError
  | sendMail
  | logMailFailure
deriving DecidableEq

/-- Embedding of the output-route worker body (main.go:130-136): one send
attempt per received paste; on failure the error is forwarded once to the
error route, with no retry of the send. -/
def outputWorkerStep (sendOk : Bool) : List DeliveryEv :=
  DeliveryEv.sendPaste :: (if sendOk then [] else [DeliveryEv.emitError])

/-- Embedding of the error-route worker body (main.go:141-149): every error is
logged; when the mail-on-error flag is set an escalation mail is attempted,
and a failure of that mail is only logged, never re-queued on the error
route. -/
def errorWorkerStep (mailOnError : Bool) (mailOk : Bool) : List DeliveryEv :=
  DeliveryEv.logError ::
    (if mailOnError then DeliveryEv.sendMail :: (if mailOk then [] else [DeliveryEv.logMailFailure])
     else [])

/-! ## Shutdown Coordinator (main.go:116-123)

The signal-handler goroutine ranges over chanSignal, setting the termination
flag per received signal; cancel() is textually after the range loop, so it
runs only when chanSignal is closed.  No statement in the program closes
chanSignal, so the event streams the handler can see contain only signal
receipts. -/

/-- Events the signal-handler goroutine can observe on chanSignal. -/
inductive SigEv
  | interrupt
  | closeChannel
deriving DecidableEq

/-- State touched by the signal handler: the terminate flag (main.go:120) and
whether cancel() has been invoked (main.go:122). -/
structure SigState where
  terminate : Bool
  cancelled : Bool
deriving DecidableEq

/-- Embedding of the goroutine at main.go:117-123: each received interrupt sets
the terminate flag; only when the channel is closed does the range loop end
and cancel() run. -/
def runSignalHandler : SigState → List SigEv → SigState
  | st, [] => st
  | st, SigEv.interrupt :: es => runSignalHandler ⟨true, st.cancelled⟩ es
  | st, SigEv.closeChannel :: _ => ⟨st.terminate, true⟩

/-! ## Shutdown sequence and delivery-route drain (main.go:204-207)

After the poll loop (which runs in the main goroutine) breaks out, main runs
close(chanOutput); wgOutput.Wait(); close(chanError); wgError.Wait() in program
order, while the two worker goroutines keep consuming.  We model the ensuing
interleavings as a transition system over the two routes (as queues of pending
payloads), their closed flags, the two worker statuses, and main's program
counter (0 = about to close the output route, ..., 4 = exited).  The initial
states carry arbitrary pending contents in both routes; the poll loop has
already exited, so the only remaining producer is the output worker, which
forwards a send failure onto the error route (main.go:134). -/

/-- Status of a delivery-worker goroutine. -/
inductive WStatus
  | running
  | done
deriving DecidableEq

/-- Global state of the shutdown phase: output route queue and closed flag,
output worker status, error route queue and closed flag, error worker status,
and main's program counter through main.go:204-207. -/
structure ShutState where
  qOut : List Nat
  outClosed : Bool
  outW : WStatus
  qErr : List Nat
  errClosed : Bool
  errW : WStatus
  mainPC : Nat
deriving DecidableEq

/-- Initial shutdown states: the poll loop has exited, both routes are open
with arbitrary pending contents, both workers are running, and main is about to
execute close(chanOutput) (main.go:204). -/
def shutInit (q1 q2 : List Nat) : ShutState :=
  ⟨q1, false, WStatus.running, q2, false, WStatus.running, 0⟩

/-- Interleaved small-step semantics of the shutdown phase.  Main's four steps
follow main.go:204-207 in program order, with each Wait enabled only once the
corresponding worker has finished.  The output worker consumes a pending paste
and either succeeds or forwards an error onto the error route (main.go:130-136),
and finishes when its route is closed and drained (range loop end).  The error
worker consumes pending errors and finishes when its route is closed and
drained (main.go:141-150). -/
inductive ShutStep : ShutState → ShutState → Prop
  | closeOutput (s : ShutState) : s.mainPC = 0 →
      ShutStep s ⟨s.qOut, true, s.outW, s.qErr, s.errClosed, s.errW, 1⟩
  | waitOutput (s : ShutState) : s.mainPC = 1 → s.outW = WStatus.done →
      ShutStep s ⟨s.qOut, s.outClosed, s.outW, s.qErr, s.errClosed, s.errW, 2⟩
  | closeError (s : ShutState) : s.mainPC = 2 →
      ShutStep s ⟨s.qOut, s.outClosed, s.outW, s.qErr, true, s.errW, 3⟩
  | waitError (s : ShutState) : s.mainPC = 3 → s.errW = WStatus.done →
      ShutStep s ⟨s.qOut, s.outClosed, s.outW, s.qErr, s.errClosed, s.errW, 4⟩
  | outConsumeOk (s : ShutState) (p : Nat) (rest : List Nat) :
      s.outW = WStatus.running → s.qOut = p :: rest →
      ShutStep s ⟨rest, s.outClosed, s.outW, s.qErr, s.errClosed, s.errW, s.mainPC⟩
  | outConsumeFail (s : ShutState) (p : Nat) (rest : List Nat) :
      s.outW = WStatus.running → s.qOut = p :: rest →
      ShutStep s ⟨rest, s.outClosed, s.outW, s.qErr ++ [p], s.errClosed, s.errW, s.mainPC⟩
  | outFinish (s : ShutState) :
      s.outW = WStatus.running → s.qOut = [] → s.outClosed = true →
      ShutStep s ⟨s.qOut, s.outClosed, WStatus.done, s.qErr, s.errClosed, s.errW, s.mainPC⟩
  | errConsume (s : ShutState) (e : Nat) (rest : List Nat) :
      s.errW = WStatus.running → s.qErr = e :: rest →
      ShutStep s ⟨s.qOut, s.outClosed, s.outW, rest, s.errClosed, s.errW, s.mainPC⟩
  | errFinish (s : ShutState) :
      s.errW = WStatus.running → s.qErr = [] → s.errClosed = true →
      ShutStep s ⟨s.qOut, s.outClosed, s.outW, s.qErr, s.errClosed, WStatus.done, s.mainPC⟩

/-- Reachability in the shutdown transition system. -/
def ShutReach (s t : ShutState) : Prop :=
  Relation.ReflTransGen ShutStep s t

/-- Inductive invariant of the shutdown phase. -/
def ShutInv (s : ShutState) : Prop :=
  s.mainPC ≤ 4 ∧
  (s.outClosed = true ↔ 1 ≤ s.mainPC) ∧
  (s.errClosed = true ↔ 3 ≤ s.mainPC) ∧
  (2 ≤ s.mainPC → s.outW = WStatus.done) ∧
  (4 ≤ s.mainPC → s.errW = WStatus.done) ∧
  (s.outW = WStatus.done → s.outClosed = true ∧ s.qOut = []) ∧
  (s.errW = WStatus.done → s.errClosed = true ∧ s.qErr = [])

/-- Outcome of the matching engine for a single keyword with its exception
list: the first matching line of the body, trimmed, unless suppressed by an
exception substring. -/
def keywordOutcome (k : List Char) (excs : List (List Char)) (body : List Char) :
    Option (List Char) :=
  match findLine k body with
  | none => none
  | some line =>
    if checkExceptions (trimSpace line) excs then none else some (trimSpace line)

/-- Body separating the two matching lines of the C1 counterexample: the first
line containing the keyword also contains the exception, the second matching
line is clean. -/
def c1Body : List Char := "x secret pass\npass clean".data

/-! ## Helper lemmas -/

lemma lookupKey_eq_none_of_not_mem (k : List Char) (l : List (List Char × α))
    (h : k ∉ l.map Prod.fst) : lookupKey k l = none := by
  induction l with
  | nil => rfl
  | cons kv tl ih =>
    obtain ⟨k', v⟩ := kv
    simp only [List.map_cons, List.mem_cons] at h
    push_neg at h
    simp only [lookupKey]
    rw [if_neg h.1]
    exact ih h.2

lemma lookupKey_eq_some_of_nodup (k : List Char) (t : α) (l : List (List Char × α))
    (hnd : (l.map Prod.fst).Nodup) (hmem : (k, t) ∈ l) : lookupKey k l = some t := by
  induction l with
  | nil => cases hmem
  | cons kv tl ih =>
    obtain ⟨k', t'⟩ := kv
    simp only [List.map_cons, List.nodup_cons] at hnd
    rcases List.mem_cons.mp hmem with heq | htl
    · injection heq with h1 h2
      subst h1; subst h2
      simp [lookupKey]
    · have hk : k ≠ k' := by
        rintro rfl
        exact hnd.1 (List.mem_map_of_mem Prod.fst htl)
      simp only [lookupKey]
      rw [if_neg hk]
      exact ih hnd.2 htl

lemma checkKeywords_lookup_not_mem (ps : List (List Char × List (List Char)))
    (body k : List Char) (h : k ∉ ps.map Prod.fst) :
    lookupKey k (checkKeywords ps body).2 = none := by
  induction ps with
  | nil => rfl
  | cons kv tl ih =>
    obtain ⟨k', excs'⟩ := kv
    simp only [List.map_cons, List.mem_cons] at h
    push_neg at h
    simp only [checkKeywords]
    cases hf : findLine k' body with
    | none => exact ih h.2
    | some line =>
      dsimp only
      by_cases hex : checkExceptions (trimSpace line) excs' = true
      · rw [if_pos hex]; exact ih h.2
      · rw [if_neg hex]
        simp only [lookupKey]
        rw [if_neg h.1]
        exact ih h.2

lemma checkKeywords_lookup (ps : List (List Char × List (List Char)))
    (body k : List Char) (excs : List (List Char))
    (hnd : (ps.map Prod.fst).Nodup) (hmem : (k, excs) ∈ ps) :
    lookupKey k (checkKeywords ps body).2 = keywordOutcome k excs body := by
  induction ps with
  | nil => cases hmem
  | cons kv tl ih =>
    obtain ⟨k', excs'⟩ := kv
    simp only [List.map_cons, List.nodup_cons] at hnd
    rcases List.mem_cons.mp hmem with heq | htl
    · injection heq with h1 h2
      subst h1; subst h2
      simp only [checkKeywords, keywordOutcome]
      cases hf : findLine k body with
      | none => exact checkKeywords_lookup_not_mem tl body k hnd.1
      | some line =>
        dsimp only
        by_cases hex : checkExceptions (trimSpace line) excs = true
        · rw [if_pos hex, if_pos hex]
          exact checkKeywords_lookup_not_mem tl body k hnd.1
        · rw [if_neg hex, if_neg hex]
          simp [lookupKey]
    · have hk : k ≠ k' := by
        rintro rfl
        exact hnd.1 (List.mem_map_of_mem Prod.fst htl)
      simp only [checkKeywords]
      cases hf : findLine k' body with
      | none => exact ih hnd.2 htl
      | some line =>
        dsimp only
        by_cases hex : checkExceptions (trimSpace line) excs' = true
        · rw [if_pos hex]; exact ih hnd.2 htl
        · rw [if_neg hex]
          simp only [lookupKey]
          rw [if_neg hk]
          exact ih hnd.2 htl

lemma keys_nodup_unique (l : List (List Char × Int)) (k : List Char) (t1 t2 : Int)
    (hnd : (l.map Prod.fst).Nodup) (h1 : (k, t1) ∈ l) (h2 : (k, t2) ∈ l) : t1 = t2 := by
  induction l with
  | nil => cases h1
  | cons kv tl ih =>
    simp only [List.map_cons, List.nodup_cons] at hnd
    rcases List.mem_cons.mp h1 with e1 | m1 <;> rcases List.mem_cons.mp h2 with e2 | m2
    · rw [← e1] at e2; injection e2 with _ h; exact h.symm
    · subst e1; exact absurd (List.mem_map_of_mem Prod.fst m2) hnd.1
    · subst e2; exact absurd (List.mem_map_of_mem Prod.fst m1) hnd.1
    · exact ih hnd.2 m1 m2

lemma expireCache_mem (now : Int) (m : List (List Char × Int)) (k : List Char) (t : Int) :
    (k, t) ∈ expireCache now m ↔ ((k, t) ∈ m ∧ ¬(t < now - retentionSeconds)) := by
  simp [expireCache, List.mem_filter]

lemma expireCache_keys_nodup (now : Int) (m : List (List Char × Int))
    (hnd : (m.map Prod.fst).Nodup) : ((expireCache now m).map Prod.fst).Nodup :=
  hnd.sublist ((List.filter_sublist m).map Prod.fst)

lemma isRegexSpecial_not_alphanum (c : Char) (h : isRegexSpecial c = true) :
    c.isAlphanum = false := by
  simp only [isRegexSpecial, Bool.or_eq_true, decide_eq_true_eq] at h
  rcases h with ((((((((((((rfl | rfl) | rfl) | rfl) | rfl) | rfl) | rfl) | rfl) | rfl) | rfl) | rfl) | rfl) | rfl) | rfl <;> decide

lemma runSignalHandler_terminate_persists (c : Bool) (es : List SigEv)
    (h : SigEv.closeChannel ∉ es) :
    (runSignalHandler ⟨true, c⟩ es).terminate = true := by
  induction es generalizing c with
  | nil => rfl
  | cons e tl ih =>
    cases e with
    | interrupt => exact ih c (fun hm => h (List.mem_cons_of_mem _ hm))
    | closeChannel => exact absurd (List.mem_cons_self _ _) h

/-! ## Claim theorems -/

/-- C1 (counterexample).  The claim quantifies over every matching line of the
body: here the second line of c1Body contains the keyword as a delimited
substring and its trimmed text contains no exception, yet checkKeywords
reports no hit for the keyword at all, because the first-match search stops at
the earlier line, whose trimmed text contains the exception, and suppression
moves on to the next pattern, not the next line. -/
theorem C1_counterexample :
    ¬ (("pass clean".data ∈ splitLines c1Body ∧
        hasDelim "pass".data "pass clean".data = true ∧
        checkExceptions (trimSpace "pass clean".data) ["secret".data] = false) →
      lookupKey "pass".data
          (checkKeywords [("pass".data, ["secret".data])] c1Body).2
        = some (trimSpace "pass clean".data)) := by
  decide

/-- C1 (amended).  For every keyword with its exception list among the
configured patterns (keyword keys distinct) and every body: if the first line
of the body containing the keyword as a delimited substring, after trimming,
does not contain any exception substring, checkKeywords reports a hit for the
keyword whose value is exactly that trimmed line; if the trimmed first
matching line does contain an exception substring, no hit is reported for the
keyword. -/
theorem C1_first_match_hit (ps : List (List Char × List (List Char))) (k : List Char)
    (excs : List (List Char)) (body line : List Char)
    (hnd : (ps.map Prod.fst).Nodup) (hmem : (k, excs) ∈ ps)
    (hline : findLine k body = some line) :
    (checkExceptions (trimSpace line) excs = false →
      lookupKey k (checkKeywords ps body).2 = some (trimSpace line)) ∧
    (checkExceptions (trimSpace line) excs = true →
      lookupKey k (checkKeywords ps body).2 = none) := by
  have h := checkKeywords_lookup ps body k excs hnd hmem
  simp only [keywordOutcome] at h
  rw [hline] at h
  dsimp only at h
  refine ⟨fun hex => ?_, fun hex => ?_⟩
  · rw [h, if_neg (by simp [hex])]
  · rw [h, if_pos hex]

/-- Witness for C1_first_match_hit at the concrete scenario body. -/
theorem C1_witness :
    lookupKey "password".data
        (checkKeywords [("password".data, ["testpassword".data])]
          "password: hunter2\n".data).2
      = some (trimSpace "password: hunter2".data) :=
  (C1_first_match_hit [("password".data, ["testpassword".data])] "password".data
    ["testpassword".data] "password: hunter2\n".data "password: hunter2".data
    (by decide) (by decide) (by decide)).1 (by decide)

/-- C2.  The signal-handler goroutine never invokes cancel() on any event
stream the program can produce: no statement closes chanSignal, and as long as
no close occurs the handler leaves the cancelled flag untouched while setting
the terminate flag on an interrupt.  The spec's promise that an interrupt
cancels the ambient context, aborting in-flight network calls promptly, is
therefore not met: only the terminate flag is set. -/
theorem C2_interrupt_no_cancel (st : SigState) (es : List SigEv)
    (h : SigEv.closeChannel ∉ es) :
    (runSignalHandler st es).cancelled = st.cancelled ∧
    (SigEv.interrupt ∈ es → (runSignalHandler st es).terminate = true) := by
  induction es generalizing st with
  | nil => exact ⟨rfl, fun hm => absurd hm (List.not_mem_nil _)⟩
  | cons e tl ih =>
    cases e with
    | interrupt =>
      have h' : SigEv.closeChannel ∉ tl := fun hm => h (List.mem_cons_of_mem _ hm)
      exact ⟨(ih ⟨true, st.cancelled⟩ h').1,
        fun _ => runSignalHandler_terminate_persists st.cancelled tl h'⟩
    | closeChannel => exact absurd (List.mem_cons_self _ _) h

/-- Witness for C2_interrupt_no_cancel: after one interrupt the terminate flag
is set but cancel() has not run. -/
theorem C2_witness :
    (runSignalHandler ⟨false, false⟩ [SigEv.interrupt]).cancelled = false ∧
    (runSignalHandler ⟨false, false⟩ [SigEv.interrupt]).terminate = true :=
  ⟨(C2_interrupt_no_cancel ⟨false, false⟩ [SigEv.interrupt] (by decide)).1,
   (C2_interrupt_no_cancel ⟨false, false⟩ [SigEv.interrupt] (by decide)).2 (by decide)⟩

/-- C3.  An item whose key is in the dedup cache is skipped with no fetch and
no delay; an item not in the cache is fetched, the fixed delay follows whether
the fetch succeeds or fails, and the inner loop processes items one at a time
in list order. -/
theorem C3_dedup_skip (checked : List (List Char × Int)) (now : Int) (fl : Bool)
    (k : List Char) (fails : List Char → Bool) (ks : List (List Char)) :
    ((lookupKey k checked).isSome = true → processItem checked now fl k = ([], checked)) ∧
    (lookupKey k checked = none →
      processItem checked now fl k =
        (PollEv.fetch k :: (if fl then [PollEv.fetchError] else []) ++ [PollEv.delay],
          (k, now) :: checked) ∧
      (processItem checked now fl k).1.getLast? = some PollEv.delay) ∧
    processPastes false checked now fails (k :: ks) =
      ((processItem checked now (fails k) k).1 ++
          (processPastes false (processItem checked now (fails k) k).2 now fails ks).1,
        (processPastes false (processItem checked now (fails k) k).2 now fails ks).2) := by
  refine ⟨fun h => ?_, fun h => ⟨?_, ?_⟩, ?_⟩
  · simp only [processItem]
    rw [if_pos h]
  · simp only [processItem]
    rw [if_neg (by simp [h])]
  · simp only [processItem]
    rw [if_neg (by simp [h])]
    cases fl <;> rfl
  · rfl

/-- Witness for C3_dedup_skip: a cached key is skipped, an uncached key is
fetched with the trailing delay even though the fetch fails. -/
theorem C3_witness :
    processItem [("a".data, 0)] 5 false "a".data = ([], [("a".data, 0)]) ∧
    processItem [("a".data, 0)] 5 true "b".data =
      (PollEv.fetch "b".data :: [PollEv.fetchError] ++ [PollEv.delay],
        ("b".data, 5) :: [("a".data, 0)]) :=
  ⟨(C3_dedup_skip [("a".data, 0)] 5 false "a".data (fun _ => false) []).1 (by decide),
   ((C3_dedup_skip [("a".data, 0)] 5 true "b".data (fun _ => false) []).2.1 (by decide)).1⟩

/-- C4.  The expiry sweep keeps exactly the entries whose timestamp is not
older than the retention window before now; every strictly older entry is
removed and its key then looks unseen (hence is fetched again by the item
loop), while entries within the window survive with their timestamp. -/
theorem C4_expiry_window (now : Int) (m : List (List Char × Int))
    (hnd : (m.map Prod.fst).Nodup) :
    (∀ k t, (k, t) ∈ expireCache now m ↔ ((k, t) ∈ m ∧ ¬(t < now - retentionSeconds))) ∧
    (∀ k t, (k, t) ∈ m → t < now - retentionSeconds →
      lookupKey k (expireCache now m) = none) ∧
    (∀ k t, (k, t) ∈ m → ¬(t < now - retentionSeconds) →
      lookupKey k (expireCache now m) = some t) ∧
    (∀ k t fl now2, (k, t) ∈ m → t < now - retentionSeconds →
      PollEv.fetch k ∈ (processItem (expireCache now m) now2 fl k).1) := by
  have hnone : ∀ k t, (k, t) ∈ m → t < now - retentionSeconds →
      lookupKey k (expireCache now m) = none := by
    intro k t hm hold
    apply lookupKey_eq_none_of_not_mem
    intro hk
    rcases List.mem_map.mp hk with ⟨⟨k0, t'⟩, hmem', hfst⟩
    dsimp only at hfst
    subst hfst
    obtain ⟨h1a, h1b⟩ := (expireCache_mem now m k0 t').mp hmem'
    have heq : t' = t := keys_nodup_unique m k0 t' t hnd h1a hm
    rw [heq] at h1b
    exact h1b hold
  refine ⟨fun k t => expireCache_mem now m k t, hnone, fun k t hm hkeep => ?_,
    fun k t fl now2 hm hold => ?_⟩
  · exact lookupKey_eq_some_of_nodup k t _ (expireCache_keys_nodup now m hnd)
      ((expireCache_mem now m k t).mpr ⟨hm, hkeep⟩)
  · have h0 := hnone k t hm hold
    simp [processItem, h0]

/-- Witness for C4_expiry_window on a two-entry cache: the stale entry is
purged and refetched, the fresh one survives. -/
theorem C4_witness :
    lookupKey "a".data (expireCache 700 [("a".data, 0), ("b".data, 650)]) = none ∧
    lookupKey "b".data (expireCache 700 [("a".data, 0), ("b".data, 650)]) = some 650 ∧
    PollEv.fetch "a".data ∈
      (processItem (expireCache 700 [("a".data, 0), ("b".data, 650)]) 800 false "a".data).1 :=
  ⟨(C4_expiry_window 700 [("a".data, 0), ("b".data, 650)] (by decide)).2.1 "a".data 0
      (by decide) (by decide),
   (C4_expiry_window 700 [("a".data, 0), ("b".data, 650)] (by decide)).2.2.1 "b".data 650
      (by decide) (by decide),
   (C4_expiry_window 700 [("a".data, 0), ("b".data, 650)] (by decide)).2.2.2 "a".data 0
      false 800 (by decide) (by decide)⟩

/-- C5.  A cycle whose list fetch fails reports the failure on the error route
as its only event (in particular no item fetch is attempted), still runs the
expiry sweep on the dedup cache, and the loop continues. -/
theorem C5_list_failure (e : List Char) (checked : List (List Char × Int)) (now : Int)
    (fails : List Char → Bool) :
    pollCycle false (Except.error e) checked now fails =
      ([PollEv.listError], expireCache now checked, true) := by
  rfl

/-- C7.  The concrete scenario of the spec: with keyword password and exception
testpassword, the body containing testpassword123 on the matching line yields
no hit, and the body with the line password: hunter2 yields exactly the hit
mapping password to that trimmed line. -/
theorem C7_scenario :
    checkKeywords [("password".data, ["testpassword".data])]
        "user: admin\npassword: testpassword123\n".data = (false, []) ∧
    checkKeywords [("password".data, ["testpassword".data])]
        "password: hunter2\n".data
      = (true, [("password".data, "password: hunter2".data)]) := by
  decide

/-- C8.  The escaped keyword always reads back as exactly the literal keyword:
quoteMeta output parses as a pure literal fragment (no character is taken as
regex syntax) and the parse never fails, for every keyword string. -/
theorem C8_quoteMeta_literal (kw : List Char) :
    parseLiteralFragment (quoteMeta kw) = some kw := by
  induction kw with
  | nil => rfl
  | cons c cs ih =>
    by_cases hs : isRegexSpecial c = true
    · have hna : c.isAlphanum = false := isRegexSpecial_not_alphanum c hs
      simp only [quoteMeta]
      rw [if_pos hs]
      simp only [parseLiteralFragment, if_true]
      rw [if_neg (by simp [hna]), ih]
      rfl
    · have hb : ¬(c = '\\') := by
        intro hc
        subst hc
        exact hs (by decide)
      simp only [quoteMeta]
      rw [if_neg hs]
      rw [parseLiteralFragment.eq_def]
      dsimp only
      rw [if_neg hb, if_neg hs, ih]
      rfl

/-- C9.  The output-route worker makes exactly one send attempt per paste and
forwards a failure once to the error route; the error-route worker always logs,
escalates by mail only when configured, only logs a mail failure, and never
emits anything back onto the error route. -/
theorem C9_delivery_workers (sendOk mailOnError mailOk : Bool) :
    (outputWorkerStep sendOk).count DeliveryEv.sendPaste = 1 ∧
    outputWorkerStep true = [DeliveryEv.sendPaste] ∧
    outputWorkerStep false = [DeliveryEv.sendPaste, DeliveryEv.emitError] ∧
    (errorWorkerStep mailOnError mailOk).count DeliveryEv.logError = 1 ∧
    errorWorkerStep true false
      = [DeliveryEv.logError, DeliveryEv.sendMail, DeliveryEv.logMailFailure] ∧
    errorWorkerStep false mailOk = [DeliveryEv.logError] ∧
    (errorWorkerStep mailOnError mailOk).count DeliveryEv.emitError = 0 := by
  cases sendOk <;> cases mailOnError <;> cases mailOk <;> decide

/-- C10.  Keyword matching is case-insensitive while exception suppression is
case-sensitive: an exception differing from the matched text only in letter
case does not suppress the hit, the same exception in matching case does, and
a keyword matches a line regardless of the line's letter case. -/
theorem C10_case_sensitive_exceptions :
    checkKeywords [("password".data, ["TESTPASSWORD".data])]
        "password: testpassword123\n".data
      = (true, [("password".data, "password: testpassword123".data)]) ∧
    checkKeywords [("password".data, ["testpassword".data])]
        "password: testpassword123\n".data = (false, []) ∧
    hasDelim "password".data "PASSWORD: hunter2".data = true := by
  decide

lemma shutInv_init (q1 q2 : List Nat) : ShutInv (shutInit q1 q2) := by
  refine ⟨?_, ?_, ?_, ?_, ?_, ?_, ?_⟩ <;> simp [shutInit]

lemma shutInv_step (s t : ShutState) (hs : ShutInv s) (h : ShutStep s t) : ShutInv t := by
  obtain ⟨h1, h2, h3, h4, h5, h6, h7⟩ := hs
  cases h with
  | closeOutput h0 =>
    have hec : s.errClosed = false := by
      cases hb : s.errClosed
      · rfl
      · exact absurd (h3.mp hb) (by omega)
    refine ⟨?_, ?_, ?_, ?_, ?_, ?_, ?_⟩ <;> dsimp only
    · decide
    · decide
    · rw [hec]; decide
    · intro hp; exact absurd hp (by decide)
    · intro hp; exact absurd hp (by decide)
    · intro hd; exact ⟨rfl, (h6 hd).2⟩
    · exact h7
  | waitOutput h0 hw =>
    have hec : s.errClosed = false := by
      cases hb : s.errClosed
      · rfl
      · exact absurd (h3.mp hb) (by omega)
    refine ⟨?_, ?_, ?_, ?_, ?_, ?_, ?_⟩ <;> dsimp only
    · decide
    · rw [(h6 hw).1]; decide
    · rw [hec]; decide
    · intro _; exact hw
    · intro hp; exact absurd hp (by decide)
    · exact h6
    · exact h7
  | closeError h0 =>
    refine ⟨?_, ?_, ?_, ?_, ?_, ?_, ?_⟩ <;> dsimp only
    · decide
    · rw [h2.mpr (by omega)]; decide
    · decide
    · intro _; exact h4 (by omega)
    · intro hp; exact absurd hp (by decide)
    · exact h6
    · intro hd; exact ⟨rfl, (h7 hd).2⟩
  | waitError h0 hw =>
    refine ⟨?_, ?_, ?_, ?_, ?_, ?_, ?_⟩ <;> dsimp only
    · decide
    · rw [h2.mpr (by omega)]; decide
    · rw [h3.mpr (by omega)]; decide
    · intro _; exact h4 (by omega)
    · intro _; exact hw
    · exact h6
    · exact h7
  | outConsumeOk p rest hw hq =>
    refine ⟨?_, ?_, ?_, ?_, ?_, ?_, ?_⟩ <;> dsimp only
    · exact h1
    · exact h2
    · exact h3
    · exact h4
    · exact h5
    · intro hd; rw [hw] at hd; exact absurd hd (by decide)
    · exact h7
  | outConsumeFail p rest hw hq =>
    refine ⟨?_, ?_, ?_, ?_, ?_, ?_, ?_⟩ <;> dsimp only
    · exact h1
    · exact h2
    · exact h3
    · exact h4
    · exact h5
    · intro hd; rw [hw] at hd; exact absurd hd (by decide)
    · intro hd
      have hpc := h3.mp (h7 hd).1
      have hod := h4 (by omega)
      rw [hw] at hod
      exact absurd hod (by decide)
  | outFinish hw hq hc =>
    refine ⟨?_, ?_, ?_, ?_, ?_, ?_, ?_⟩ <;> dsimp only
    · exact h1
    · exact h2
    · exact h3
    · intro _; rfl
    · exact h5
    · intro _; exact ⟨hc, hq⟩
    · exact h7
  | errConsume e rest hw hq =>
    refine ⟨?_, ?_, ?_, ?_, ?_, ?_, ?_⟩ <;> dsimp only
    · exact h1
    · exact h2
    · exact h3
    · exact h4
    · exact h5
    · exact h6
    · intro hd; rw [hw] at hd; exact absurd hd (by decide)
  | errFinish hw hq hc =>
    refine ⟨?_, ?_, ?_, ?_, ?_, ?_, ?_⟩ <;> dsimp only
    · exact h1
    · exact h2
    · exact h3
    · exact h4
    · intro _; rfl
    · exact h6
    · intro _; exact ⟨hc, hq⟩

lemma shutInv_reach (q1 q2 : List Nat) (s : ShutState)
    (h : ShutReach (shutInit q1 q2) s) : ShutInv s := by
  induction h with
  | refl => exact shutInv_init q1 q2
  | tail hr hstep ih => exact shutInv_step _ _ ih hstep

/-- C6.  In every state reachable from the post-poll-loop shutdown point:
the error route is closed only after the output route is closed and its worker
has fully drained and finished; while the output worker (the only remaining
producer into the error route) can still send, the error route is open, so no
write to a closed route is possible; and when main reaches its exit point both
routes are empty and both workers have finished. -/
theorem C6_shutdown_order (q1 q2 : List Nat) (s : ShutState)
    (h : ShutReach (shutInit q1 q2) s) :
    (s.errClosed = true → s.outClosed = true ∧ s.outW = WStatus.done) ∧
    (s.outW = WStatus.running → s.errClosed = false) ∧
    (s.mainPC = 4 →
      s.qOut = [] ∧ s.qErr = [] ∧ s.outW = WStatus.done ∧ s.errW = WStatus.done) := by
  obtain ⟨h1, h2, h3, h4, h5, h6, h7⟩ := shutInv_reach q1 q2 s h
  refine ⟨fun hec => ?_, fun hw => ?_, fun hpc => ?_⟩
  · have hpc := h3.mp hec
    exact ⟨h2.mpr (by omega), h4 (by omega)⟩
  · cases hb : s.errClosed
    · rfl
    · have hpc := h3.mp hb
      have hod := h4 (by omega)
      rw [hw] at hod
      exact absurd hod (by decide)
  · have hod := h4 (by omega)
    have hed := h5 (by omega)
    exact ⟨(h6 hod).2, (h7 hed).2, hod, hed⟩

/-- Witness for C6_shutdown_order: the fully-exited state reached by an
explicit empty-queue run of the shutdown sequence. -/
theorem C6_witness :
    ((⟨[], true, WStatus.done, [], true, WStatus.done, 4⟩ : ShutState).outClosed = true ∧
      (⟨[], true, WStatus.done, [], true, WStatus.done, 4⟩ : ShutState).outW = WStatus.done) ∧
    ((⟨[], true, WStatus.done, [], true, WStatus.done, 4⟩ : ShutState).qOut = [] ∧
      (⟨[], true, WStatus.done, [], true, WStatus.done, 4⟩ : ShutState).qErr = [] ∧
      (⟨[], true, WStatus.done, [], true, WStatus.done, 4⟩ : ShutState).outW = WStatus.done ∧
      (⟨[], true, WStatus.done, [], true, WStatus.done, 4⟩ : ShutState).errW = WStatus.done) := by
  have t1 : ShutStep (shutInit [] [])
      ⟨[], true, WStatus.running, [], false, WStatus.running, 1⟩ :=
    ShutStep.closeOutput _ rfl
  have t2 : ShutStep ⟨[], true, WStatus.running, [], false, WStatus.running, 1⟩
      ⟨[], true, WStatus.done, [], false, WStatus.running, 1⟩ :=
    ShutStep.outFinish _ rfl rfl rfl
  have t3 : ShutStep ⟨[], true, WStatus.done, [], false, WStatus.running, 1⟩
      ⟨[], true, WStatus.done, [], false, WStatus.running, 2⟩ :=
    ShutStep.waitOutput _ rfl rfl
  have t4 : ShutStep ⟨[], true, WStatus.done, [], false, WStatus.running, 2⟩
      ⟨[], true, WStatus.done, [], true, WStatus.running, 3⟩ :=
    ShutStep.closeError _ rfl
  have t5 : ShutStep ⟨[], true, WStatus.done, [], true, WStatus.running, 3⟩
      ⟨[], true, WStatus.done, [], true, WStatus.done, 3⟩ :=
    ShutStep.errFinish _ rfl rfl rfl
  have t6 : ShutStep ⟨[], true, WStatus.done, [], true, WStatus.done, 3⟩
      ⟨[], true, WStatus.done, [], true, WStatus.done, 4⟩ :=
    ShutStep.waitError _ rfl rfl
  have hreach : ShutReach (shutInit [] [])
      ⟨[], true, WStatus.done, [], true, WStatus.done, 4⟩ :=
    Relation.ReflTransGen.tail (Relation.ReflTransGen.tail (Relation.ReflTransGen.tail
      (Relation.ReflTransGen.tail (Relation.ReflTransGen.tail
        (Relation.ReflTransGen.single t1) t2) t3) t4) t5) t6
  have h := C6_shutdown_order [] [] _ hreach
  exact ⟨h.1 rfl, h.2.2 rfl⟩
